import Mathlib

/-
Verification development for the fingerprint capture / archival core of
PersonsService (src/src/persons/persons.service.ts): the batch submission
operation createPersonFingerPrint, the listing operation
showFingerprintRegistered, and the retrieval operation
getFingerprintComparison.

The TypeScript code is shallowly embedded: repository lookups, the FTP
client and the clock are an oracle (structure Env); every remote call the
code performs is recorded as an event (inductive Ev), so that theorems can
speak about which files were uploaded, removed or listed, and whether the
connection was closed.
-/

set_option maxHeartbeats 1000000

/-- Entity FingerprintType: id, name and short_name (used in file names). -/
structure FingerprintType where
  id : Nat
  name : String
  short_name : String
  deriving DecidableEq

/-- Entity PersonFingerprint: the quality record for one (person, type)
key.  updatedAt is a timestamp modelled as a Nat. -/
structure PersonFingerprint where
  id : Nat
  quality : Nat
  attempts : Nat
  path : String
  fingerprintType : FingerprintType
  updatedAt : Nat
  deriving DecidableEq

/-- Entity Person, with its personFingerprints relation loaded (as
findOnePerson and the comparison path load it). -/
structure Person where
  id : Nat
  personFingerprints : List PersonFingerprint
  deriving DecidableEq

/-- One element of CreatePersonFingerprintDto.fingerprints: the wsq
payload (base64 text), the declared quality and the type id. -/
structure Fingerprint where
  wsq : String
  quality : Nat
  fingerprintTypeId : Nat
  deriving DecidableEq

/-- Errors thrown by the service: RpcException with a code and message,
RpcException with a bare message, a plain JS Error, and the TypeError
raised by dereferencing a null lookup result. -/
inductive Err where
  | rpc (code : Nat) (msg : String)
  | rpcPlain (msg : String)
  | jsError (msg : String)
  | nullDeref
  deriving DecidableEq

/-- Observable calls made against the repositories and the FTP client. -/
inductive Ev where
  | connect
  | disconnect
  | save (record : PersonFingerprint)
  | list (dir : String)
  | upload (dir : String) (full : String)
  | remove (full : String)
  | download (full : String)
  deriving DecidableEq

/-- Outcome of one scan of the batch: either its type name is pushed to
the success list, or to the error list, or an exception escapes the
per-item try/catch and aborts the whole batch. -/
inductive ScanRes where
  | ok (name : String)
  | err (name : String)
  | thrown (e : Err)
  deriving DecidableEq

/-- Events performed while processing one scan, together with its outcome. -/
structure ScanOut where
  events : List Ev
  res : ScanRes
  deriving DecidableEq

/-- The oracle the service runs against: repository contents, FTP call
results and the current time.  Except.error means the awaited call
rejects. -/
structure Env where
  findPerson : Nat → Option Person
  findRecord : Nat → Nat → Option PersonFingerprint
  findType : Nat → Option FingerprintType
  listFilesRes : String → Except String (List String)
  removeRes : String → Except String Unit
  uploadRes : String → Except String Unit
  downloadRes : String → Except String String
  now : Nat

/-- Whether the list needle occurs at the head of the haystack. -/
def leadsChars : List Char → List Char → Bool
  | [], _ => true
  | _ :: _, [] => false
  | a :: as, b :: bs => a == b && leadsChars as bs

/-- JS String.prototype.includes: substring containment on char lists. -/
def subChars (needle : List Char) : List Char → Bool
  | [] => leadsChars needle []
  | b :: bs => leadsChars needle (b :: bs) || subChars needle bs

/-- Value of a decimal digit character. -/
def digitVal (c : Char) : Nat := c.toNat - 48

/-- The first maximal run of digits in the char list, if any: the
behaviour of name.match(/\d+/). -/
def firstRun : List Char → Option (List Char)
  | [] => none
  | c :: cs => if c.isDigit then some (c :: cs.takeWhile Char.isDigit) else firstRun cs

/-- Digits to the Nat they denote, as parseInt(s, 10) on a digit run. -/
def digitsToNat (ds : List Char) : Nat := ds.foldl (fun a c => a * 10 + digitVal c) 0

/-- parseInt(name.match(/\d+/)?.[0], 10): the number embedded in a file
name, none when the name holds no digit. -/
def firstNum (s : String) : Option Nat := (firstRun s.data).map digitsToNat

/-- The directory used for one person: Person/Fingerprints/{personId}/. -/
def dirPath (pid : Nat) : String := "Person/Fingerprints/" ++ toString pid ++ "/"

/-- dir + shortName + ".wsq": the path stored in a newly created record. -/
def plainPath (dir short : String) : String := dir ++ short ++ ".wsq"

/-- dir + shortName + "_" + q + ".wsq": the path every upload targets. -/
def suffixedPath (dir short : String) (q : Nat) : String :=
  dir ++ short ++ "_" ++ toString q ++ ".wsq"

/-- files.filter(file => file.name.includes(short_name)). -/
def candidateNames (short : String) (files : List String) : List String :=
  files.filter (fun n => subChars short.data n.data)

/-- The numbers parsed from the candidate names, nulls kept (the code
computes them inside .map, before .filter(Boolean)). -/
def parsedList (short : String) (files : List String) : List (Option Nat) :=
  (candidateNames short files).map firstNum

/-- quality_exist: some candidate file parsed exactly to q. -/
def qualityExists (short : String) (files : List String) (q : Nat) : Bool :=
  (parsedList short files).any (fun o => o == some q)

/-- .filter(Boolean): drop the nulls and the zeros before the minimum. -/
def nonzeroParsed (short : String) (files : List String) : List Nat :=
  ((parsedList short files).filterMap id).filter (fun n => n != 0)

/-- One step of .reduce((min, num) => (num < min ? num : min), Infinity),
with none standing for Infinity. -/
def stepMin (acc : Option Nat) (n : Nat) : Option Nat :=
  match acc with
  | none => some n
  | some m => some (if n < m then n else m)

/-- The reduce itself: minimum of a list, none when it is empty. -/
def minFold (l : List Nat) : Option Nat := l.foldl stepMin none

/-- smallestNumber of the eviction branch: minimum of the nonzero parsed
numbers of the candidate files, none for Infinity. -/
def minNonzero (short : String) (files : List String) : Option Nat :=
  minFold (nonzeroParsed short files)

/-- Modelled from the spec: the PersonFingerprint entity declaration is
not under src/, so the column default of attempts for a freshly created
record is taken from the spec, which states that a record is created with
attempts = 1 (sections 3 and 4.1). -/
def defaultAttempts : Nat := 1

/-- Lines 259-265: the in-memory update of an existing record — raise
quality (and updatedAt) when the new quality is strictly better, always
increment attempts. -/
def bumpRecord (pf0 : PersonFingerprint) (q : Nat) (now : Nat) : PersonFingerprint :=
  if pf0.quality < q then
    { pf0 with quality := q, updatedAt := now, attempts := pf0.attempts + 1 }
  else
    { pf0 with attempts := pf0.attempts + 1 }

/-- Lines 266-279: the record created on first submission for a key; its
stored path is the no-suffix path. -/
def newRecord (pid : Nat) (ft : FingerprintType) (q : Nat) (now : Nat) : PersonFingerprint :=
  { id := 0
    quality := q
    attempts := defaultAttempts
    path := plainPath (dirPath pid) ft.short_name
    fingerprintType := ft
    updatedAt := now }

/-- Lines 281-311: save the record, then either the plain upload
(attempts not above 3) or the eviction branch (attempts above 3); every
FTP failure inside the try block turns into an err outcome carrying the
fingerprint type name. -/
def afterSave (env : Env) (dir : String) (pf : PersonFingerprint) (q : Nat) : ScanOut :=
  if 3 < pf.attempts then
    match env.listFilesRes dir with
    | Except.error _ => ⟨[Ev.save pf, Ev.list dir], ScanRes.err pf.fingerprintType.name⟩
    | Except.ok files =>
      match minNonzero pf.fingerprintType.short_name files with
      | some m =>
        if m < q ∧ qualityExists pf.fingerprintType.short_name files q = false then
          match env.removeRes (suffixedPath dir pf.fingerprintType.short_name m) with
          | Except.error _ =>
            ⟨[Ev.save pf, Ev.list dir, Ev.remove (suffixedPath dir pf.fingerprintType.short_name m)],
              ScanRes.err pf.fingerprintType.name⟩
          | Except.ok _ =>
            match env.uploadRes (suffixedPath dir pf.fingerprintType.short_name q) with
            | Except.error _ =>
              ⟨[Ev.save pf, Ev.list dir, Ev.remove (suffixedPath dir pf.fingerprintType.short_name m),
                  Ev.upload dir (suffixedPath dir pf.fingerprintType.short_name q)],
                ScanRes.err pf.fingerprintType.name⟩
            | Except.ok _ =>
              ⟨[Ev.save pf, Ev.list dir, Ev.remove (suffixedPath dir pf.fingerprintType.short_name m),
                  Ev.upload dir (suffixedPath dir pf.fingerprintType.short_name q)],
                ScanRes.ok pf.fingerprintType.name⟩
        else ⟨[Ev.save pf, Ev.list dir], ScanRes.ok pf.fingerprintType.name⟩
      | none => ⟨[Ev.save pf, Ev.list dir], ScanRes.ok pf.fingerprintType.name⟩
  else
    match env.uploadRes (suffixedPath dir pf.fingerprintType.short_name q) with
    | Except.error _ =>
      ⟨[Ev.save pf, Ev.upload dir (suffixedPath dir pf.fingerprintType.short_name q)],
        ScanRes.err pf.fingerprintType.name⟩
    | Except.ok _ =>
      ⟨[Ev.save pf, Ev.upload dir (suffixedPath dir pf.fingerprintType.short_name q)],
        ScanRes.ok pf.fingerprintType.name⟩

/-- Lines 249-312: processing of one scan of the batch.  A missing
fingerprint type throws an RpcException outside the try/catch, which
aborts the whole reduce. -/
def processScan (env : Env) (pid : Nat) (fp : Fingerprint) : ScanOut :=
  match env.findRecord pid fp.fingerprintTypeId with
  | some pf0 => afterSave env (dirPath pid) (bumpRecord pf0 fp.quality env.now) fp.quality
  | none =>
    match env.findType fp.fingerprintTypeId with
    | none =>
      ⟨[], ScanRes.thrown (Err.rpcPlain
        ("Tipo de huella con ID " ++ toString fp.fingerprintTypeId ++ " no encontrado"))⟩
    | some ft => afterSave env (dirPath pid) (newRecord pid ft fp.quality env.now) fp.quality

/-- The sequential reduce over the batch, accumulating the success and
error name lists and the event trace; a thrown scan rejects the whole
accumulator promise. -/
def foldScans (env : Env) (pid : Nat) :
    List Fingerprint → List String → List String → List Ev →
    Except (List Ev × Err) (List String × List String × List Ev)
  | [], s, e, evs => Except.ok (s, e, evs)
  | fp :: rest, s, e, evs =>
    match processScan env pid fp with
    | ⟨evs2, ScanRes.ok n⟩ => foldScans env pid rest (s ++ [n]) e (evs ++ evs2)
    | ⟨evs2, ScanRes.err n⟩ => foldScans env pid rest s (e ++ [n]) (evs ++ evs2)
    | ⟨evs2, ScanRes.thrown er⟩ => Except.error (evs ++ evs2, er)

/-- findOnePerson, restricted to lookup by id (the service is called with
the numeric personId rendered as the term): RpcException 404 when the
person does not exist. -/
def findOnePerson (env : Env) (pid : Nat) : Except Err Person :=
  match env.findPerson pid with
  | none => Except.error (Err.rpc 404 ("Persona con " ++ toString pid ++ " no encontrada"))
  | some p => Except.ok p

/-- Lines 238-332, createPersonFingerPrint: connect (started together
with the person lookup), run the reduce, then build the message and close
the connection.  There is no try/finally around the reduce, so a thrown
scan escapes before onDestroy. -/
def createPersonFingerPrint (env : Env) (pid : Nat) (fps : List Fingerprint) :
    Except (List Ev × Err) (String × List String × List String × List Ev) :=
  match findOnePerson env pid with
  | Except.error e => Except.error ([Ev.connect], e)
  | Except.ok _ =>
    match foldScans env pid fps [] [] [Ev.connect] with
    | Except.error (evs, er) => Except.error (evs, er)
    | Except.ok (s, e, evs) =>
      Except.ok
        (if 0 < s.length then
           "Las huellas: " ++ String.intercalate (", ") s ++ " se han registrado correctamente."
         else "No se registró ninguna huella correctamente.",
         s, e, evs ++ [Ev.disconnect])

/-- Lines 334-344, showFingerprintRegistered: the findOne result is
dereferenced with no null check, so a missing person surfaces as a
TypeError (nullDeref), not as a 404. -/
def showFingerprintRegistered (env : Env) (pid : Nat) :
    Except Err (List (Nat × String)) :=
  match env.findPerson pid with
  | none => Except.error Err.nullDeref
  | some p =>
    Except.ok (p.personFingerprints.map
      (fun f => (f.fingerprintType.id, f.fingerprintType.name)))

/-- One returned element of the comparison set. -/
structure CompItem where
  id : Nat
  quality : Nat
  fingerprintType : FingerprintType
  wsqBase64 : String
  deriving DecidableEq

/-- Lines 357-372: the sequential download loop; the first failing
download throws a JS Error naming the stored path. -/
def downloadLoop (env : Env) :
    List PersonFingerprint → List CompItem → List Ev →
    Except String (List CompItem) × List Ev
  | [], acc, evs => (Except.ok acc, evs)
  | fp :: rest, acc, evs =>
    match env.downloadRes fp.path with
    | Except.error _ =>
      (Except.error ("Failed to download file at path: " ++ fp.path), evs ++ [Ev.download fp.path])
    | Except.ok bytes =>
      downloadLoop env rest (acc ++ [⟨fp.id, fp.quality, fp.fingerprintType, bytes⟩])
        (evs ++ [Ev.download fp.path])

/-- Lines 346-377, getFingerprintComparison: 404 when the person has no
fingerprint records; connect, download every record at its stored path,
and close the connection in the finally block on both outcomes. -/
def getFingerprintComparison (env : Env) (pid : Nat) :
    Except Err (List CompItem) × List Ev :=
  match findOnePerson env pid with
  | Except.error e => (Except.error e, [])
  | Except.ok person =>
    if person.personFingerprints.length = 0 then
      (Except.error (Err.rpc 404 ("Person with ID: " ++ toString pid ++ " not found")), [])
    else
      match downloadLoop env person.personFingerprints [] [Ev.connect] with
      | (Except.error m, evs) => (Except.error (Err.jsError m), evs ++ [Ev.disconnect])
      | (Except.ok items, evs) => (Except.ok items, evs ++ [Ev.disconnect])

/-- The upload and remove events of a trace: what the scan actually wrote
to or erased from the archive. -/
def archiveOps (evs : List Ev) : List Ev :=
  evs.filter (fun e =>
    match e with
    | Ev.upload _ _ => true
    | Ev.remove _ => true
    | _ => false)

/-- The success-list contribution of one scan outcome. -/
def okName (o : ScanOut) : Option String :=
  match o.res with
  | ScanRes.ok n => some n
  | _ => none

/-- The error-list contribution of one scan outcome. -/
def errName (o : ScanOut) : Option String :=
  match o.res with
  | ScanRes.err n => some n
  | _ => none

/-- Whether the scan outcome aborts the batch. -/
def isThrownB (o : ScanOut) : Bool :=
  match o.res with
  | ScanRes.thrown _ => true
  | _ => false

/-- The success names of a whole batch, in batch order. -/
def okNames (env : Env) (pid : Nat) (fps : List Fingerprint) : List String :=
  fps.filterMap (fun fp => okName (processScan env pid fp))

/-- The error names of a whole batch, in batch order. -/
def errNames (env : Env) (pid : Nat) (fps : List Fingerprint) : List String :=
  fps.filterMap (fun fp => errName (processScan env pid fp))

/-- The event trace of a whole batch, in batch order. -/
def batchEvents (env : Env) (pid : Nat) : List Fingerprint → List Ev
  | [] => []
  | fp :: rest => (processScan env pid fp).events ++ batchEvents env pid rest

/-- Concrete fingerprint type used by counterexamples and witnesses. -/
def ftTH : FingerprintType := ⟨2, "Pulgar", "TH"⟩

/-- A second concrete fingerprint type. -/
def ftIN : FingerprintType := ⟨4, "Indice", "IN"⟩

/-- A person with no fingerprint records. -/
def person7 : Person := ⟨7, []⟩

/-- A fully healthy oracle: person 7 exists, no quality record, type 2
resolves, every FTP call succeeds, empty remote directory, clock at 5. -/
def baseEnv : Env :=
  { findPerson := fun _ => some person7
    findRecord := fun _ _ => none
    findType := fun i => if i = 2 then some ftTH else none
    listFilesRes := fun _ => Except.ok []
    removeRes := fun _ => Except.ok ()
    uploadRes := fun _ => Except.ok ()
    downloadRes := fun _ => Except.ok ("")
    now := 5 }

/-- A scan for type 2 with quality 50. -/
def fpQ50 : Fingerprint := ⟨"", 50, 2⟩

/-- A scan for type 2 with quality 60. -/
def fpQ60 : Fingerprint := ⟨"", 60, 2⟩

/-- A scan for type 2 with quality 70. -/
def fpQ70 : Fingerprint := ⟨"", 70, 2⟩

/-- A scan naming a fingerprint type id that does not exist. -/
def fpBad : Fingerprint := ⟨"", 50, 99⟩

/-- A scan for type 4 with quality 50. -/
def fpIN : Fingerprint := ⟨"", 50, 4⟩

/-- An existing record with one prior attempt. -/
def pfAtt1 : PersonFingerprint := ⟨1, 60, 1, plainPath (dirPath 7) ("TH"), ftTH, 0⟩

/-- An existing record with three prior attempts. -/
def pfAtt3 : PersonFingerprint := ⟨1, 60, 3, plainPath (dirPath 7) ("TH"), ftTH, 0⟩

/-- An existing record with four prior attempts. -/
def pfAtt4 : PersonFingerprint := ⟨1, 60, 4, plainPath (dirPath 7) ("TH"), ftTH, 0⟩

/-- baseEnv with the attempts-1 record present. -/
def envAtt1 : Env := { baseEnv with findRecord := fun _ _ => some pfAtt1 }

/-- baseEnv with the attempts-3 record present. -/
def envAtt3 : Env := { baseEnv with findRecord := fun _ _ => some pfAtt3 }

/-- Eviction-branch oracle whose only remote file parses to zero. -/
def envZeroParse : Env :=
  { baseEnv with
    findRecord := fun _ _ => some pfAtt4
    listFilesRes := fun _ => Except.ok ["TH_0.wsq"] }

/-- Eviction-branch oracle where a non-candidate file carries the new
quality as its number. -/
def envScope : Env :=
  { baseEnv with
    findRecord := fun _ _ => some pfAtt4
    listFilesRes := fun _ => Except.ok ["TH_10.wsq", "XX_50.wsq"] }

/-- Eviction-branch oracle with two candidate variants, 55 and 60. -/
def envW1 : Env :=
  { baseEnv with
    findRecord := fun _ _ => some pfAtt4
    listFilesRes := fun _ => Except.ok ["TH_55.wsq", "TH_60.wsq"] }

/-- Eviction-branch oracle where the new quality is already a variant. -/
def envDup : Env :=
  { baseEnv with
    findRecord := fun _ _ => some pfAtt4
    listFilesRes := fun _ => Except.ok ["TH_40.wsq", "TH_50.wsq"] }

/-- Eviction-branch oracle whose directory listing call rejects. -/
def envListFail : Env :=
  { baseEnv with
    findRecord := fun _ _ => some pfAtt4
    listFilesRes := fun _ => Except.error ("down") }

/-- Oracle resolving two types where only the type-4 upload rejects. -/
def envMixed : Env :=
  { baseEnv with
    findType := fun i => if i = 2 then some ftTH else if i = 4 then some ftIN else none
    uploadRes := fun p =>
      if p = suffixedPath (dirPath 7) ("IN") 50 then Except.error ("fail") else Except.ok () }

/-- A stored record for person 9, used by the comparison path. -/
def pfC : PersonFingerprint := ⟨3, 60, 1, plainPath (dirPath 9) ("TH"), ftTH, 0⟩

/-- Person 9 with one fingerprint record. -/
def personFp : Person := ⟨9, [pfC]⟩

/-- Oracle where every download rejects. -/
def envDLFail : Env :=
  { baseEnv with
    findPerson := fun _ => some personFp
    downloadRes := fun _ => Except.error ("io") }

/-- Oracle with no person at all. -/
def envNoPerson : Env := { baseEnv with findPerson := fun _ => none }

theorem natMin_def (a b : Nat) : Nat.min a b = if a ≤ b then a else b := Nat.min_def

theorem natMax_def (a b : Nat) : Nat.max a b = if a ≤ b then b else a := Nat.max_def

theorem natMin_eq_left {a b : Nat} (h : a ≤ b) : Nat.min a b = a := by
  rw [natMin_def, if_pos h]

theorem natMin_eq_right {a b : Nat} (h : b ≤ a) : Nat.min a b = b := by
  rw [natMin_def]; split <;> omega

theorem bumpRecord_attempts (pf0 : PersonFingerprint) (q now : Nat) :
    (bumpRecord pf0 q now).attempts = pf0.attempts + 1 := by
  unfold bumpRecord; split <;> rfl

theorem bumpRecord_fingerprintType (pf0 : PersonFingerprint) (q now : Nat) :
    (bumpRecord pf0 q now).fingerprintType = pf0.fingerprintType := by
  unfold bumpRecord; split <;> rfl

theorem bumpRecord_quality (pf0 : PersonFingerprint) (q now : Nat) :
    (bumpRecord pf0 q now).quality = Nat.max pf0.quality q := by
  unfold bumpRecord
  rcases Nat.lt_or_ge pf0.quality q with h | h
  · rw [if_pos h]
    show q = Nat.max pf0.quality q
    rw [natMax_def]; split <;> omega
  · rw [if_neg (Nat.not_lt.mpr h)]
    show pf0.quality = Nat.max pf0.quality q
    rw [natMax_def]; split <;> omega

theorem bumpRecord_updatedAt_improved (pf0 : PersonFingerprint) (q now : Nat)
    (h : pf0.quality < q) : (bumpRecord pf0 q now).updatedAt = now := by
  unfold bumpRecord; rw [if_pos h]

theorem bumpRecord_updatedAt_same (pf0 : PersonFingerprint) (q now : Nat)
    (h : ¬ pf0.quality < q) :
    (bumpRecord pf0 q now).updatedAt = pf0.updatedAt ∧
      (bumpRecord pf0 q now).quality = pf0.quality := by
  unfold bumpRecord; rw [if_neg h]; exact ⟨rfl, rfl⟩

theorem foldl_stepMin (l : List Nat) (a : Nat) :
    l.foldl stepMin (some a) = some (l.foldl Nat.min a) := by
  induction l generalizing a with
  | nil => rfl
  | cons b t ih =>
    have hstep : stepMin (some a) b = some (Nat.min a b) := by
      show some (if b < a then b else a) = some (Nat.min a b)
      rcases Nat.lt_or_ge b a with h | h
      · rw [if_pos h, natMin_eq_right (Nat.le_of_lt h)]
      · rw [if_neg (Nat.not_lt.mpr h), natMin_eq_left h]
    show List.foldl stepMin (stepMin (some a) b) t = some (List.foldl Nat.min (Nat.min a b) t)
    rw [hstep]
    exact ih (Nat.min a b)

theorem foldl_min_le_init (t : List Nat) (a : Nat) : t.foldl Nat.min a ≤ a := by
  induction t generalizing a with
  | nil => exact Nat.le_refl a
  | cons b t ih => exact Nat.le_trans (ih (Nat.min a b)) (Nat.min_le_left a b)

theorem foldl_min_mem (t : List Nat) (a : Nat) :
    t.foldl Nat.min a = a ∨ t.foldl Nat.min a ∈ t := by
  induction t generalizing a with
  | nil => exact Or.inl rfl
  | cons b t ih =>
    have hred : (b :: t).foldl Nat.min a = t.foldl Nat.min (Nat.min a b) := rfl
    rcases ih (Nat.min a b) with h | h
    · rcases Nat.le_total a b with hab | hba
      · exact Or.inl (by rw [hred, h, natMin_eq_left hab])
      · exact Or.inr (by rw [hred, h, natMin_eq_right hba]; exact List.mem_cons_self b t)
    · exact Or.inr (by rw [hred]; exact List.mem_cons_of_mem b h)

theorem foldl_min_le_mem (t : List Nat) (a : Nat) : ∀ n ∈ t, t.foldl Nat.min a ≤ n := by
  induction t generalizing a with
  | nil => intro n hn; cases hn
  | cons b t ih =>
    intro n hn
    have hred : (b :: t).foldl Nat.min a = t.foldl Nat.min (Nat.min a b) := rfl
    rcases List.mem_cons.mp hn with rfl | hn2
    · rw [hred]
      exact Nat.le_trans (foldl_min_le_init t (Nat.min a n)) (Nat.min_le_right a n)
    · rw [hred]
      exact ih (Nat.min a b) n hn2

theorem minFold_spec (l : List Nat) :
    (l = [] ∧ minFold l = none) ∨
      ∃ m, minFold l = some m ∧ m ∈ l ∧ ∀ n ∈ l, m ≤ n := by
  cases l with
  | nil => exact Or.inl ⟨rfl, rfl⟩
  | cons a t =>
    refine Or.inr ⟨t.foldl Nat.min a, ?_, ?_, ?_⟩
    · show (a :: t).foldl stepMin none = some (t.foldl Nat.min a)
      show t.foldl stepMin (some a) = some (t.foldl Nat.min a)
      exact foldl_stepMin t a
    · rcases foldl_min_mem t a with h | h
      · rw [h]; exact List.mem_cons_self a t
      · exact List.mem_cons_of_mem a h
    · intro n hn
      rcases List.mem_cons.mp hn with rfl | hn2
      · exact foldl_min_le_init t n
      · exact foldl_min_le_mem t a n hn2

theorem minFold_lt_iff (l : List Nat) (q : Nat) :
    (∃ n ∈ l, n < q) ↔ ∃ m, minFold l = some m ∧ m < q := by
  rcases minFold_spec l with ⟨hl, hm⟩ | ⟨m, hm, hmem, hle⟩
  · subst hl
    constructor
    · rintro ⟨n, hn, _⟩; cases hn
    · rintro ⟨m, hsome, _⟩; rw [hm] at hsome; cases hsome
  · constructor
    · rintro ⟨n, hn, hnq⟩
      exact ⟨m, hm, Nat.lt_of_le_of_lt (hle n hn) hnq⟩
    · rintro ⟨m2, hm2, hq⟩
      rw [hm] at hm2
      injection hm2 with h
      subst h
      exact ⟨m, hmem, hq⟩

theorem qualityExists_iff (short : String) (files : List String) (q : Nat) :
    qualityExists short files q = true ↔ some q ∈ parsedList short files := by
  unfold qualityExists
  rw [List.any_eq_true]
  constructor
  · rintro ⟨o, ho, hb⟩
    have heq : o = some q := by simpa using hb
    exact heq ▸ ho
  · intro h
    exact ⟨some q, h, by simp⟩

theorem afterSave_evict (env : Env) (dir : String) (pf : PersonFingerprint) (q : Nat)
    (files : List String) (m : Nat)
    (hA : 3 < pf.attempts)
    (hL : env.listFilesRes dir = Except.ok files)
    (hm : minNonzero pf.fingerprintType.short_name files = some m)
    (hlt : m < q)
    (hq : qualityExists pf.fingerprintType.short_name files q = false)
    (hr : env.removeRes (suffixedPath dir pf.fingerprintType.short_name m) = Except.ok ())
    (hu : env.uploadRes (suffixedPath dir pf.fingerprintType.short_name q) = Except.ok ()) :
    afterSave env dir pf q =
      ⟨[Ev.save pf, Ev.list dir, Ev.remove (suffixedPath dir pf.fingerprintType.short_name m),
          Ev.upload dir (suffixedPath dir pf.fingerprintType.short_name q)],
        ScanRes.ok pf.fingerprintType.name⟩ := by
  unfold afterSave
  rw [if_pos hA]
  simp only [hL, hm]
  rw [if_pos ⟨hlt, hq⟩]
  simp only [hr, hu]

theorem afterSave_noact (env : Env) (dir : String) (pf : PersonFingerprint) (q : Nat)
    (files : List String)
    (hA : 3 < pf.attempts)
    (hL : env.listFilesRes dir = Except.ok files)
    (hc : ∀ m, minNonzero pf.fingerprintType.short_name files = some m →
        m < q → qualityExists pf.fingerprintType.short_name files q = true) :
    afterSave env dir pf q =
      ⟨[Ev.save pf, Ev.list dir], ScanRes.ok pf.fingerprintType.name⟩ := by
  unfold afterSave
  rw [if_pos hA]
  simp only [hL]
  cases hm : minNonzero pf.fingerprintType.short_name files with
  | none => simp only [hm]
  | some m =>
    have hnc : ¬(m < q ∧ qualityExists pf.fingerprintType.short_name files q = false) := by
      rintro ⟨hlt, hqf⟩
      have htrue := hc m hm hlt
      rw [htrue] at hqf
      cases hqf
    simp only [hm]
    rw [if_neg hnc]

theorem afterSave_low (env : Env) (dir : String) (pf : PersonFingerprint) (q : Nat)
    (hA : ¬ 3 < pf.attempts) :
    (afterSave env dir pf q).events =
      [Ev.save pf, Ev.upload dir (suffixedPath dir pf.fingerprintType.short_name q)] ∧
    ((∃ u, env.uploadRes (suffixedPath dir pf.fingerprintType.short_name q) = Except.ok u) →
        (afterSave env dir pf q).res = ScanRes.ok pf.fingerprintType.name) ∧
    ((∃ s, env.uploadRes (suffixedPath dir pf.fingerprintType.short_name q) = Except.error s) →
        (afterSave env dir pf q).res = ScanRes.err pf.fingerprintType.name) := by
  unfold afterSave
  rw [if_neg hA]
  cases env.uploadRes (suffixedPath dir pf.fingerprintType.short_name q) with
  | error s =>
    refine ⟨rfl, ?_, fun _ => rfl⟩
    rintro ⟨u, hu2⟩
    cases hu2
  | ok u =>
    refine ⟨rfl, fun _ => rfl, ?_⟩
    rintro ⟨s, hs⟩
    cases hs

theorem processScan_existing (env : Env) (pid : Nat) (fp : Fingerprint)
    (pf0 : PersonFingerprint)
    (h1 : env.findRecord pid fp.fingerprintTypeId = some pf0) :
    processScan env pid fp =
      afterSave env (dirPath pid) (bumpRecord pf0 fp.quality env.now) fp.quality := by
  unfold processScan
  rw [h1]

theorem processScan_new (env : Env) (pid : Nat) (fp : Fingerprint) (ft : FingerprintType)
    (h1 : env.findRecord pid fp.fingerprintTypeId = none)
    (h2 : env.findType fp.fingerprintTypeId = some ft) :
    processScan env pid fp =
      afterSave env (dirPath pid) (newRecord pid ft fp.quality env.now) fp.quality := by
  unfold processScan
  rw [h1, h2]

theorem processScan_thrown (env : Env) (pid : Nat) (fp : Fingerprint)
    (h1 : env.findRecord pid fp.fingerprintTypeId = none)
    (h2 : env.findType fp.fingerprintTypeId = none) :
    processScan env pid fp =
      ⟨[], ScanRes.thrown (Err.rpcPlain
        ("Tipo de huella con ID " ++ toString fp.fingerprintTypeId ++ " no encontrado"))⟩ := by
  unfold processScan
  rw [h1, h2]

theorem afterSave_events_head (env : Env) (dir : String) (pf : PersonFingerprint) (q : Nat) :
    ∃ rest, (afterSave env dir pf q).events = Ev.save pf :: rest := by
  unfold afterSave
  repeat' split
  all_goals exact ⟨_, rfl⟩

theorem afterSave_not_thrown (env : Env) (dir : String) (pf : PersonFingerprint) (q : Nat) :
    isThrownB (afterSave env dir pf q) = false := by
  unfold afterSave
  repeat' split
  all_goals rfl

theorem afterSave_no_conn (env : Env) (dir : String) (pf : PersonFingerprint) (q : Nat) :
    Ev.connect ∉ (afterSave env dir pf q).events ∧
      Ev.disconnect ∉ (afterSave env dir pf q).events := by
  unfold afterSave
  repeat' split
  all_goals constructor
  all_goals intro hmem
  all_goals simp at hmem

theorem processScan_no_conn (env : Env) (pid : Nat) (fp : Fingerprint) :
    Ev.connect ∉ (processScan env pid fp).events ∧
      Ev.disconnect ∉ (processScan env pid fp).events := by
  unfold processScan
  cases env.findRecord pid fp.fingerprintTypeId with
  | some pf0 => exact afterSave_no_conn env (dirPath pid) (bumpRecord pf0 fp.quality env.now) fp.quality
  | none =>
    cases env.findType fp.fingerprintTypeId with
    | none => exact ⟨by simp, by simp⟩
    | some ft => exact afterSave_no_conn env (dirPath pid) (newRecord pid ft fp.quality env.now) fp.quality

theorem batchEvents_cons (env : Env) (pid : Nat) (fp : Fingerprint) (rest : List Fingerprint) :
    batchEvents env pid (fp :: rest) =
      (processScan env pid fp).events ++ batchEvents env pid rest := rfl

theorem batchEvents_no_conn (env : Env) (pid : Nat) (fps : List Fingerprint) :
    Ev.connect ∉ batchEvents env pid fps ∧ Ev.disconnect ∉ batchEvents env pid fps := by
  induction fps with
  | nil => exact ⟨List.not_mem_nil _, List.not_mem_nil _⟩
  | cons fp rest ih =>
    have h := processScan_no_conn env pid fp
    refine ⟨?_, ?_⟩ <;> rw [batchEvents_cons]
    · intro hmem
      rcases List.mem_append.mp hmem with h1 | h1
      · exact h.1 h1
      · exact ih.1 h1
    · intro hmem
      rcases List.mem_append.mp hmem with h1 | h1
      · exact h.2 h1
      · exact ih.2 h1

theorem okNames_cons (env : Env) (pid : Nat) (fp : Fingerprint) (rest : List Fingerprint) :
    okNames env pid (fp :: rest) =
      (okName (processScan env pid fp)).toList ++ okNames env pid rest := by
  unfold okNames
  rw [List.filterMap_cons]
  cases okName (processScan env pid fp) <;> simp

theorem errNames_cons (env : Env) (pid : Nat) (fp : Fingerprint) (rest : List Fingerprint) :
    errNames env pid (fp :: rest) =
      (errName (processScan env pid fp)).toList ++ errNames env pid rest := by
  unfold errNames
  rw [List.filterMap_cons]
  cases errName (processScan env pid fp) <;> simp

theorem foldScans_ok (env : Env) (pid : Nat) :
    ∀ (fps : List Fingerprint),
      (∀ fp ∈ fps, isThrownB (processScan env pid fp) = false) →
      ∀ s e evs, foldScans env pid fps s e evs =
        Except.ok (s ++ okNames env pid fps, e ++ errNames env pid fps,
          evs ++ batchEvents env pid fps) := by
  intro fps
  induction fps with
  | nil =>
    intro _ s e evs
    simp [foldScans, okNames, errNames, batchEvents]
  | cons fp rest ih =>
    intro hn s e evs
    have hfp := hn fp (List.mem_cons_self fp rest)
    have hrest : ∀ f ∈ rest, isThrownB (processScan env pid f) = false :=
      fun f hf => hn f (List.mem_cons_of_mem fp hf)
    rcases hres : processScan env pid fp with ⟨evs2, r⟩
    cases r with
    | ok n =>
      have hstep : foldScans env pid (fp :: rest) s e evs =
          foldScans env pid rest (s ++ [n]) e (evs ++ evs2) := by
        simp only [foldScans, hres]
      rw [hstep, ih hrest, okNames_cons, errNames_cons, batchEvents_cons, hres]
      simp [okName, errName, List.append_assoc]
    | err n =>
      have hstep : foldScans env pid (fp :: rest) s e evs =
          foldScans env pid rest s (e ++ [n]) (evs ++ evs2) := by
        simp only [foldScans, hres]
      rw [hstep, ih hrest, okNames_cons, errNames_cons, batchEvents_cons, hres]
      simp [okName, errName, List.append_assoc]
    | thrown er =>
      rw [hres] at hfp
      cases hfp

theorem foldScans_error_shape (env : Env) (pid : Nat) :
    ∀ (fps : List Fingerprint) (s e : List String) (evs0 evs : List Ev) (er : Err),
      foldScans env pid fps s e evs0 = Except.error (evs, er) →
      ∃ t, evs = evs0 ++ t ∧ Ev.connect ∉ t ∧ Ev.disconnect ∉ t := by
  intro fps
  induction fps with
  | nil =>
    intro s e evs0 evs er h
    exact absurd h (by simp [foldScans])
  | cons fp rest ih =>
    intro s e evs0 evs er h
    rcases hres : processScan env pid fp with ⟨evs2, r⟩
    have hno := processScan_no_conn env pid fp
    rw [hres] at hno
    cases r with
    | ok n =>
      have hstep : foldScans env pid (fp :: rest) s e evs0 =
          foldScans env pid rest (s ++ [n]) e (evs0 ++ evs2) := by
        simp only [foldScans, hres]
      rw [hstep] at h
      obtain ⟨t, ht, hc, hd⟩ := ih _ _ _ _ _ h
      refine ⟨evs2 ++ t, by rw [ht, List.append_assoc], ?_, ?_⟩
      · intro hx
        rcases List.mem_append.mp hx with hx2 | hx2
        · exact hno.1 hx2
        · exact hc hx2
      · intro hx
        rcases List.mem_append.mp hx with hx2 | hx2
        · exact hno.2 hx2
        · exact hd hx2
    | err n =>
      have hstep : foldScans env pid (fp :: rest) s e evs0 =
          foldScans env pid rest s (e ++ [n]) (evs0 ++ evs2) := by
        simp only [foldScans, hres]
      rw [hstep] at h
      obtain ⟨t, ht, hc, hd⟩ := ih _ _ _ _ _ h
      refine ⟨evs2 ++ t, by rw [ht, List.append_assoc], ?_, ?_⟩
      · intro hx
        rcases List.mem_append.mp hx with hx2 | hx2
        · exact hno.1 hx2
        · exact hc hx2
      · intro hx
        rcases List.mem_append.mp hx with hx2 | hx2
        · exact hno.2 hx2
        · exact hd hx2
    | thrown er2 =>
      have hstep : foldScans env pid (fp :: rest) s e evs0 =
          Except.error (evs0 ++ evs2, er2) := by
        simp only [foldScans, hres]
      rw [hstep] at h
      injection h with hpair
      have hevs : evs = evs0 ++ evs2 := (congrArg Prod.fst hpair).symm
      exact ⟨evs2, hevs, hno.1, hno.2⟩

theorem names_length (env : Env) (pid : Nat) :
    ∀ (fps : List Fingerprint),
      (∀ fp ∈ fps, isThrownB (processScan env pid fp) = false) →
      (okNames env pid fps).length + (errNames env pid fps).length = fps.length := by
  intro fps
  induction fps with
  | nil => intro _; rfl
  | cons fp rest ih =>
    intro hn
    have hfp := hn fp (List.mem_cons_self fp rest)
    have hrest : ∀ f ∈ rest, isThrownB (processScan env pid f) = false :=
      fun f hf => hn f (List.mem_cons_of_mem fp hf)
    rw [okNames_cons, errNames_cons]
    rcases hres : processScan env pid fp with ⟨evs2, r⟩
    cases r with
    | ok n =>
      simp only [okName, errName, Option.toList, List.length_append, List.length_cons,
        List.length_nil]
      have := ih hrest
      omega
    | err n =>
      simp only [okName, errName, Option.toList, List.length_append, List.length_cons,
        List.length_nil]
      have := ih hrest
      omega
    | thrown er =>
      rw [hres] at hfp
      cases hfp

theorem getLast?_append_single (l : List Ev) (a : Ev) : (l ++ [a]).getLast? = some a := by
  induction l with
  | nil => rfl
  | cons b t ih =>
    rw [List.cons_append, List.getLast?_cons]
    simp [ih]

theorem downloadLoop_err (env : Env) :
    ∀ (l : List PersonFingerprint) (acc : List CompItem) (evs0 : List Ev),
      (∃ fp ∈ l, ∃ s, env.downloadRes fp.path = Except.error s) →
      ∃ msg evs, downloadLoop env l acc evs0 = (Except.error msg, evs) := by
  intro l
  induction l with
  | nil =>
    intro acc evs0 h
    rcases h with ⟨fp, hfp, _⟩
    cases hfp
  | cons fp rest ih =>
    intro acc evs0 h
    cases hd : env.downloadRes fp.path with
    | error s =>
      refine ⟨"Failed to download file at path: " ++ fp.path, evs0 ++ [Ev.download fp.path], ?_⟩
      unfold downloadLoop
      rw [hd]
    | ok b =>
      rcases h with ⟨fp2, hfp2, s, hs⟩
      rcases List.mem_cons.mp hfp2 with heq | hmem
      · rw [heq, hd] at hs
        cases hs
      · have hstep : downloadLoop env (fp :: rest) acc evs0 =
            downloadLoop env rest (acc ++ [⟨fp.id, fp.quality, fp.fingerprintType, b⟩])
              (evs0 ++ [Ev.download fp.path]) := by
          simp only [downloadLoop, hd]
        rw [hstep]
        exact ih _ _ ⟨fp2, hmem, s, hs⟩

theorem downloadLoop_ok (env : Env) :
    ∀ (l : List PersonFingerprint) (acc : List CompItem) (evs0 : List Ev),
      (∀ fp ∈ l, ∃ b, env.downloadRes fp.path = Except.ok b) →
      ∃ items evs, downloadLoop env l acc evs0 = (Except.ok items, evs) := by
  intro l
  induction l with
  | nil =>
    intro acc evs0 _
    exact ⟨acc, evs0, rfl⟩
  | cons fp rest ih =>
    intro acc evs0 h
    obtain ⟨b, hb⟩ := h fp (List.mem_cons_self fp rest)
    have hstep : downloadLoop env (fp :: rest) acc evs0 =
        downloadLoop env rest (acc ++ [⟨fp.id, fp.quality, fp.fingerprintType, b⟩])
          (evs0 ++ [Ev.download fp.path]) := by
      simp only [downloadLoop, hb]
    rw [hstep]
    exact ih _ _ (fun f hf => h f (List.mem_cons_of_mem fp hf))

theorem afterSave_list_mem (env : Env) (dir : String) (pf : PersonFingerprint) (q : Nat)
    (hA : 3 < pf.attempts) :
    Ev.list dir ∈ (afterSave env dir pf q).events := by
  unfold afterSave
  rw [if_pos hA]
  repeat' split
  all_goals simp

/-- C1, counterexample: the claim's eviction condition — minimum parsed
quality among the files containing the short name strictly below the new
quality, and no remote file carrying the new quality — does not govern the
remote action.  First input: the only candidate parses to 0, which is
strictly below the new quality 50, no file carries 50, yet nothing is
removed or uploaded, because .filter(Boolean) drops the parsed 0 from the
minimum.  Second input: a file not containing the short name carries the
new quality 50, so the claim demands no remote action, yet the code evicts
and uploads, because quality_exist only inspects candidate files. -/
theorem claim_C1_counterexample :
    (archiveOps (processScan envZeroParse 7 fpQ50).events = [] ∧
      parsedList ("TH") (["TH_0.wsq"]) = [some 0] ∧
      qualityExists ("TH") (["TH_0.wsq"]) 50 = false) ∧
    (archiveOps (processScan envScope 7 fpQ50).events =
        [Ev.remove (suffixedPath (dirPath 7) ("TH") 10),
         Ev.upload (dirPath 7) (suffixedPath (dirPath 7) ("TH") 50)] ∧
      firstNum ("XX_50.wsq") = some 50) := by
  exact ⟨⟨by decide, by decide, by decide⟩, ⟨by decide, by decide⟩⟩

/-- C1 (amended): in the eviction branch with a successful listing and
healthy remove/upload calls, the code removes the file named by the
minimum of the nonzero parsed numbers of the candidate files (names
containing the short name, first digit run) and uploads the new file,
exactly when some nonzero parsed candidate number is strictly below the
new quality and no candidate file (zero parses included) parses exactly to
the new quality; in every other case no remote file is removed or
uploaded.  In all cases the record is saved with attempts incremented. -/
theorem claim_C1_amended (env : Env) (pid : Nat) (fp : Fingerprint)
    (pf0 : PersonFingerprint) (files : List String)
    (h1 : env.findRecord pid fp.fingerprintTypeId = some pf0)
    (h2 : 2 < pf0.attempts)
    (h3 : env.listFilesRes (dirPath pid) = Except.ok files)
    (h4 : ∀ p, env.removeRes p = Except.ok ())
    (h5 : ∀ p, env.uploadRes p = Except.ok ()) :
    (((∃ n ∈ nonzeroParsed pf0.fingerprintType.short_name files, n < fp.quality) ∧
        qualityExists pf0.fingerprintType.short_name files fp.quality = false) →
      ∃ m, m ∈ nonzeroParsed pf0.fingerprintType.short_name files ∧
        (∀ n ∈ nonzeroParsed pf0.fingerprintType.short_name files, m ≤ n) ∧
        archiveOps (processScan env pid fp).events =
          [Ev.remove (suffixedPath (dirPath pid) pf0.fingerprintType.short_name m),
           Ev.upload (dirPath pid)
             (suffixedPath (dirPath pid) pf0.fingerprintType.short_name fp.quality)]) ∧
    ((¬ ((∃ n ∈ nonzeroParsed pf0.fingerprintType.short_name files, n < fp.quality) ∧
        qualityExists pf0.fingerprintType.short_name files fp.quality = false)) →
      archiveOps (processScan env pid fp).events = []) ∧
    (∃ r rest, (processScan env pid fp).events = Ev.save r :: rest ∧
      r.attempts = pf0.attempts + 1) := by
  have hps := processScan_existing env pid fp pf0 h1
  have hft : (bumpRecord pf0 fp.quality env.now).fingerprintType = pf0.fingerprintType :=
    bumpRecord_fingerprintType pf0 fp.quality env.now
  have hA : 3 < (bumpRecord pf0 fp.quality env.now).attempts := by
    rw [bumpRecord_attempts]; omega
  refine ⟨?_, ?_, ?_⟩
  · rintro ⟨⟨n, hn, hnq⟩, hqe⟩
    rcases minFold_spec (nonzeroParsed pf0.fingerprintType.short_name files) with
      ⟨hnil, _⟩ | ⟨m, hm, hmem, hle⟩
    · rw [hnil] at hn
      cases hn
    · have hmlt : m < fp.quality := Nat.lt_of_le_of_lt (hle n hn) hnq
      have hmn : minNonzero (bumpRecord pf0 fp.quality env.now).fingerprintType.short_name
          files = some m := by
        rw [hft]; exact hm
      have hqe2 : qualityExists (bumpRecord pf0 fp.quality env.now).fingerprintType.short_name
          files fp.quality = false := by
        rw [hft]; exact hqe
      have heq := afterSave_evict env (dirPath pid) (bumpRecord pf0 fp.quality env.now)
        fp.quality files m hA h3 hmn hmlt hqe2 (h4 _) (h5 _)
      refine ⟨m, hmem, hle, ?_⟩
      rw [hps, heq, hft]
      rfl
  · intro hnc
    have hc2 : ∀ m,
        minNonzero (bumpRecord pf0 fp.quality env.now).fingerprintType.short_name files =
          some m →
        m < fp.quality →
        qualityExists (bumpRecord pf0 fp.quality env.now).fingerprintType.short_name files
          fp.quality = true := by
      intro m hm hmlt
      rw [hft] at hm
      rw [hft]
      cases hqv : qualityExists pf0.fingerprintType.short_name files fp.quality with
      | true => rfl
      | false =>
        exact absurd ⟨(minFold_lt_iff _ _).mpr ⟨m, hm, hmlt⟩, hqv⟩ hnc
    have heq := afterSave_noact env (dirPath pid) (bumpRecord pf0 fp.quality env.now)
      fp.quality files hA h3 hc2
    rw [hps, heq]
    rfl
  · obtain ⟨rest, hrest⟩ :=
      afterSave_events_head env (dirPath pid) (bumpRecord pf0 fp.quality env.now) fp.quality
    exact ⟨bumpRecord pf0 fp.quality env.now, rest, by rw [hps]; exact hrest,
      bumpRecord_attempts pf0 fp.quality env.now⟩

/-- C1, witness: with candidate variants 55 and 60 and new quality 70 the
amended theorem yields the removal of TH_55.wsq and the upload of
TH_70.wsq. -/
theorem claim_C1_witness :
    2 < pfAtt4.attempts ∧
    archiveOps (processScan envW1 7 fpQ70).events =
      [Ev.remove (suffixedPath (dirPath 7) ("TH") 55),
       Ev.upload (dirPath 7) (suffixedPath (dirPath 7) ("TH") 70)] := by
  refine ⟨by decide, ?_⟩
  obtain ⟨hact, hno, hsave⟩ :=
    claim_C1_amended envW1 7 fpQ70 pfAtt4 (["TH_55.wsq", "TH_60.wsq"]) rfl (by decide) rfl
      (fun _ => rfl) (fun _ => rfl)
  obtain ⟨m, hmem, hle, hops⟩ := hact ⟨⟨55, by decide, by decide⟩, by decide⟩
  have hl : nonzeroParsed pfAtt4.fingerprintType.short_name (["TH_55.wsq", "TH_60.wsq"]) =
      [55, 60] := by decide
  rw [hl] at hmem
  have h55 : m ≤ 55 := hle 55 (by decide)
  have hm55 : m = 55 := by
    rcases List.mem_cons.mp hmem with h | h
    · exact h
    · rcases List.mem_cons.mp h with h9 | h9
      · omega
      · cases h9
  subst hm55
  exact hops

/-- C2, counterexample: a submission against an existing record with
attempts = 3 before the call runs the eviction branch (the remote
directory is listed and nothing is uploaded), refuting the claim that
attempts <= 3 before the call uploads unconditionally with no listing; the
code tests the counter after incrementing it. -/
theorem claim_C2_counterexample :
    pfAtt3.attempts = 3 ∧
    (processScan envAtt3 7 fpQ50).events =
      [Ev.save (bumpRecord pfAtt3 50 5), Ev.list (dirPath 7)] ∧
    archiveOps (processScan envAtt3 7 fpQ50).events = [] := by
  exact ⟨rfl, by decide, by decide⟩

/-- C2 (amended): for an existing record the eviction branch (remote
listing) runs exactly when attempts before the call is at least 3 (the
code tests the post-increment counter against 3), and when attempts before
the call is at most 2 the scan performs exactly the save followed by one
unconditional upload attempt, with no listing. -/
theorem claim_C2_amended (env : Env) (pid : Nat) (fp : Fingerprint)
    (pf0 : PersonFingerprint)
    (h1 : env.findRecord pid fp.fingerprintTypeId = some pf0) :
    (Ev.list (dirPath pid) ∈ (processScan env pid fp).events ↔ 3 ≤ pf0.attempts) ∧
    (pf0.attempts ≤ 2 →
      (processScan env pid fp).events =
        [Ev.save (bumpRecord pf0 fp.quality env.now),
         Ev.upload (dirPath pid)
           (suffixedPath (dirPath pid) pf0.fingerprintType.short_name fp.quality)]) := by
  have hps := processScan_existing env pid fp pf0 h1
  by_cases hA : 3 ≤ pf0.attempts
  · have hA2 : 3 < (bumpRecord pf0 fp.quality env.now).attempts := by
      rw [bumpRecord_attempts]; omega
    refine ⟨⟨fun _ => hA, fun _ => ?_⟩, fun h2 => absurd hA (by omega)⟩
    rw [hps]
    exact afterSave_list_mem env (dirPath pid) (bumpRecord pf0 fp.quality env.now) fp.quality hA2
  · have hlow : ¬ 3 < (bumpRecord pf0 fp.quality env.now).attempts := by
      rw [bumpRecord_attempts]; omega
    have hev := (afterSave_low env (dirPath pid) (bumpRecord pf0 fp.quality env.now)
      fp.quality hlow).1
    refine ⟨⟨fun hmem => ?_, fun h3 => absurd h3 hA⟩, fun _ => ?_⟩
    · rw [hps, hev] at hmem
      simp at hmem
    · rw [hps, hev, bumpRecord_fingerprintType]

/-- C2, witness: with one prior attempt the scan saves and uploads with no
listing, and the listing marker is absent from the trace. -/
theorem claim_C2_witness :
    (Ev.list (dirPath 7) ∈ (processScan envAtt1 7 fpQ50).events ↔ 3 ≤ pfAtt1.attempts) ∧
    (pfAtt1.attempts ≤ 2 →
      (processScan envAtt1 7 fpQ50).events =
        [Ev.save (bumpRecord pfAtt1 50 5),
         Ev.upload (dirPath 7) (suffixedPath (dirPath 7) pfAtt1.fingerprintType.short_name 50)]) :=
  claim_C2_amended envAtt1 7 fpQ50 pfAtt1 rfl

/-- C3: on a first submission for a key, exactly one upload is performed,
but it targets the quality-suffixed path TH_60.wsq, while the record's
stored path is the no-suffix path TH.wsq — the path variable declared at
line 273 is shadowed by the one at line 282, so the no-suffix path is
stored yet never written.  The record is created with attempts = 1. -/
theorem claim_C3_first_upload_path :
    processScan baseEnv 7 fpQ60 =
      ⟨[Ev.save (newRecord 7 ftTH 60 5),
        Ev.upload (dirPath 7) (suffixedPath (dirPath 7) ("TH") 60)],
        ScanRes.ok ("Pulgar")⟩ ∧
    (newRecord 7 ftTH 60 5).path = plainPath (dirPath 7) ("TH") ∧
    (newRecord 7 ftTH 60 5).attempts = 1 ∧
    suffixedPath (dirPath 7) ("TH") 60 ≠ plainPath (dirPath 7) ("TH") := by
  exact ⟨by decide, by decide, rfl, by decide⟩

/-- C4: against an existing record with attempts at most 3 before the
call, the saved record has attempts incremented by exactly one, quality
equal to max of old and new, updatedAt refreshed exactly when the new
quality is strictly greater, and quality unchanged otherwise — for every
oracle, whatever the archive calls return. -/
theorem claim_C4_accept_improved (env : Env) (pid : Nat) (fp : Fingerprint)
    (pf0 : PersonFingerprint)
    (h1 : env.findRecord pid fp.fingerprintTypeId = some pf0)
    (_h2 : pf0.attempts ≤ 3) :
    ∃ r rest, (processScan env pid fp).events = Ev.save r :: rest ∧
      r.attempts = pf0.attempts + 1 ∧
      r.quality = Nat.max pf0.quality fp.quality ∧
      (pf0.quality < fp.quality → r.updatedAt = env.now) ∧
      (¬ pf0.quality < fp.quality →
        r.updatedAt = pf0.updatedAt ∧ r.quality = pf0.quality) := by
  have hps := processScan_existing env pid fp pf0 h1
  obtain ⟨rest, hrest⟩ :=
    afterSave_events_head env (dirPath pid) (bumpRecord pf0 fp.quality env.now) fp.quality
  exact ⟨bumpRecord pf0 fp.quality env.now, rest, by rw [hps]; exact hrest,
    bumpRecord_attempts pf0 fp.quality env.now,
    bumpRecord_quality pf0 fp.quality env.now,
    fun h => bumpRecord_updatedAt_improved pf0 fp.quality env.now h,
    fun h => bumpRecord_updatedAt_same pf0 fp.quality env.now h⟩

/-- C4, witness: a record with one attempt and quality 60 receiving
quality 70 ends with attempts 2, quality 70 and a refreshed updatedAt. -/
theorem claim_C4_witness :
    ∃ r rest, (processScan envAtt1 7 fpQ70).events = Ev.save r :: rest ∧
      r.attempts = pfAtt1.attempts + 1 ∧
      r.quality = Nat.max pfAtt1.quality 70 ∧
      (pfAtt1.quality < 70 → r.updatedAt = 5) ∧
      (¬ pfAtt1.quality < 70 →
        r.updatedAt = pfAtt1.updatedAt ∧ r.quality = pfAtt1.quality) :=
  claim_C4_accept_improved envAtt1 7 fpQ70 pfAtt1 rfl (by decide)

/-- C5, counterexample: a batch whose only scan names an unknown
fingerprint type throws out of the reduce before onDestroy runs, so the
trace holds the connect and no disconnect — the connection is left open on
this exit path, refuting the claim that it is closed on every thrown
fault. -/
theorem claim_C5_counterexample :
    createPersonFingerPrint baseEnv 7 [fpBad] =
      Except.error ([Ev.connect], Err.rpcPlain ("Tipo de huella con ID 99 no encontrado")) ∧
    Ev.disconnect ∉ ([Ev.connect] : List Ev) := by
  exact ⟨rfl, by decide⟩

/-- C5 (amended): the connection is opened exactly once per invocation and
closed exactly once whenever the reduce completes — including per-item
failures — with the disconnect as the final event; but on any thrown fault
(person lookup failure, fingerprint-type lookup failure) the invocation
ends with the connection opened and never closed. -/
theorem claim_C5_amended (env : Env) (pid : Nat) (fps : List Fingerprint) (p : Person)
    (hp : env.findPerson pid = some p) :
    ((∀ fp ∈ fps, isThrownB (processScan env pid fp) = false) →
      ∃ msg s e evs, createPersonFingerPrint env pid fps = Except.ok (msg, s, e, evs) ∧
        evs.count Ev.connect = 1 ∧ evs.count Ev.disconnect = 1 ∧
        evs.getLast? = some Ev.disconnect) ∧
    (∀ evs er, createPersonFingerPrint env pid fps = Except.error (evs, er) →
      Ev.connect ∈ evs ∧ Ev.disconnect ∉ evs) := by
  have hperson : findOnePerson env pid = Except.ok p := by
    unfold findOnePerson
    rw [hp]
  constructor
  · intro hn
    have hfold := foldScans_ok env pid fps hn [] [] [Ev.connect]
    have hb := batchEvents_no_conn env pid fps
    have hmain : createPersonFingerPrint env pid fps =
        Except.ok
          ((if 0 < (okNames env pid fps).length then
              "Las huellas: " ++ String.intercalate (", ") (okNames env pid fps) ++
                " se han registrado correctamente."
            else "No se registró ninguna huella correctamente."),
           okNames env pid fps, errNames env pid fps,
           ([Ev.connect] ++ batchEvents env pid fps) ++ [Ev.disconnect]) := by
      simp only [createPersonFingerPrint, hperson, hfold, List.nil_append]
    have hc0 : (batchEvents env pid fps).count Ev.connect = 0 :=
      List.count_eq_zero.mpr hb.1
    have hd0 : (batchEvents env pid fps).count Ev.disconnect = 0 :=
      List.count_eq_zero.mpr hb.2
    refine ⟨_, _, _, _, hmain, ?_, ?_, ?_⟩
    · simp [List.count_append, hc0]
    · simp [List.count_append, hd0]
    · exact getLast?_append_single ([Ev.connect] ++ batchEvents env pid fps) Ev.disconnect
  · intro evs er h
    simp only [createPersonFingerPrint, hperson] at h
    cases hfold2 : foldScans env pid fps [] [] [Ev.connect] with
    | error pr =>
      rcases pr with ⟨evs2, er2⟩
      simp only [hfold2] at h
      injection h with hpair
      have hevs : evs = evs2 := (congrArg Prod.fst hpair).symm
      obtain ⟨t, ht, hc, hd⟩ :=
        foldScans_error_shape env pid fps [] [] [Ev.connect] evs2 er2 hfold2
      rw [hevs, ht]
      refine ⟨List.mem_append.mpr (Or.inl (by simp)), ?_⟩
      intro hx
      rcases List.mem_append.mp hx with hx2 | hx2
      · simp at hx2
      · exact hd hx2
    | ok tr =>
      rcases tr with ⟨s, e, evs3⟩
      simp only [hfold2] at h
      cases h

/-- C5, witness: a healthy one-scan batch yields a trace opening and
closing the connection exactly once, ending on the disconnect. -/
theorem claim_C5_witness :
    ∃ msg s e evs, createPersonFingerPrint baseEnv 7 [fpQ60] = Except.ok (msg, s, e, evs) ∧
      evs.count Ev.connect = 1 ∧ evs.count Ev.disconnect = 1 ∧
      evs.getLast? = some Ev.disconnect :=
  (claim_C5_amended baseEnv 7 [fpQ60] person7 rfl).1 (by decide)

/-- C6: getFingerprintComparison answers a 404 RpcException when the
person has no fingerprint records; with at least one record, any failing
download makes the whole call end in an error (no partial list can be
returned), and on both the failing and the all-successful path the trace
ends with the disconnect emitted by the finally block. -/
theorem claim_C6_all_or_nothing (env : Env) (pid : Nat) (p : Person)
    (hp : env.findPerson pid = some p) :
    (p.personFingerprints.length = 0 →
      getFingerprintComparison env pid =
        (Except.error (Err.rpc 404 ("Person with ID: " ++ toString pid ++ " not found")),
          [])) ∧
    (p.personFingerprints.length ≠ 0 →
      ((∃ fp ∈ p.personFingerprints, ∃ s, env.downloadRes fp.path = Except.error s) →
        ∃ msg evs, getFingerprintComparison env pid = (Except.error (Err.jsError msg), evs) ∧
          evs.getLast? = some Ev.disconnect) ∧
      ((∀ fp ∈ p.personFingerprints, ∃ b, env.downloadRes fp.path = Except.ok b) →
        ∃ items evs, getFingerprintComparison env pid = (Except.ok items, evs) ∧
          evs.getLast? = some Ev.disconnect)) := by
  have hperson : findOnePerson env pid = Except.ok p := by
    unfold findOnePerson
    rw [hp]
  constructor
  · intro h0
    simp only [getFingerprintComparison, hperson]
    rw [if_pos h0]
  · intro hne
    constructor
    · intro hex
      obtain ⟨msg, evs, hdl⟩ := downloadLoop_err env p.personFingerprints [] [Ev.connect] hex
      refine ⟨msg, evs ++ [Ev.disconnect], ?_, getLast?_append_single evs Ev.disconnect⟩
      simp only [getFingerprintComparison, hperson]
      rw [if_neg hne]
      simp only [hdl]
    · intro hall
      obtain ⟨items, evs, hdl⟩ := downloadLoop_ok env p.personFingerprints [] [Ev.connect] hall
      refine ⟨items, evs ++ [Ev.disconnect], ?_, getLast?_append_single evs Ev.disconnect⟩
      simp only [getFingerprintComparison, hperson]
      rw [if_neg hne]
      simp only [hdl]

/-- C6, witness: a person with one record and a rejecting download store
makes the whole retrieval fail with a JS Error while the trace still ends
with the disconnect. -/
theorem claim_C6_witness :
    ∃ msg evs, getFingerprintComparison envDLFail 9 = (Except.error (Err.jsError msg), evs) ∧
      evs.getLast? = some Ev.disconnect :=
  ((claim_C6_all_or_nothing envDLFail 9 personFp rfl).2 (by decide)).1
    ⟨pfC, by decide, "io", rfl⟩

/-- C7, counterexample: a two-scan batch whose first scan names an unknown
fingerprint type rejects the whole reduce with the RpcException — no
success/error report is produced and the second scan, which would have
succeeded, is never processed; the failure is not recorded in the error
list, refuting the no-batch-abort claim for lookup failures. -/
theorem claim_C7_counterexample :
    createPersonFingerPrint baseEnv 7 [fpBad, fpQ60] =
      Except.error ([Ev.connect], Err.rpcPlain ("Tipo de huella con ID 99 no encontrado")) ∧
    okName (processScan baseEnv 7 fpQ60) = some ("Pulgar") := by
  exact ⟨rfl, by decide⟩

/-- C7 (amended): when no scan of the batch throws (every scan resolves
its fingerprint type), the batch always completes with a report: archive
failures (listing, removal, upload) are recorded per scan, the success
list is exactly the ok outcomes in batch order, the error list exactly the
err outcomes in batch order, and every scan lands in exactly one of the
two; but a fingerprint-type lookup failure throws and aborts the whole
batch. -/
theorem claim_C7_amended (env : Env) (pid : Nat) (fps : List Fingerprint) (p : Person)
    (hp : env.findPerson pid = some p)
    (hn : ∀ fp ∈ fps, isThrownB (processScan env pid fp) = false) :
    ∃ msg evs, createPersonFingerPrint env pid fps =
        Except.ok (msg, okNames env pid fps, errNames env pid fps, evs) ∧
      (okNames env pid fps).length + (errNames env pid fps).length = fps.length := by
  have hperson : findOnePerson env pid = Except.ok p := by
    unfold findOnePerson
    rw [hp]
  have hfold := foldScans_ok env pid fps hn [] [] [Ev.connect]
  refine ⟨(if 0 < (okNames env pid fps).length then
      "Las huellas: " ++ String.intercalate (", ") (okNames env pid fps) ++
        " se han registrado correctamente."
    else "No se registró ninguna huella correctamente."),
    ([Ev.connect] ++ batchEvents env pid fps) ++ [Ev.disconnect], ?_,
    names_length env pid fps hn⟩
  simp only [createPersonFingerPrint, hperson, hfold, List.nil_append]

/-- C7, witness: a two-scan batch where only the second upload rejects
reports success ["Pulgar"] and error ["Indice"], in batch order, with
every scan in exactly one list. -/
theorem claim_C7_witness :
    (∃ msg evs, createPersonFingerPrint envMixed 7 [fpQ60, fpIN] =
        Except.ok (msg, okNames envMixed 7 [fpQ60, fpIN], errNames envMixed 7 [fpQ60, fpIN],
          evs) ∧
      (okNames envMixed 7 [fpQ60, fpIN]).length +
          (errNames envMixed 7 [fpQ60, fpIN]).length =
        ([fpQ60, fpIN] : List Fingerprint).length) ∧
    okNames envMixed 7 [fpQ60, fpIN] = ["Pulgar"] ∧
    errNames envMixed 7 [fpQ60, fpIN] = ["Indice"] :=
  ⟨claim_C7_amended envMixed 7 [fpQ60, fpIN] person7 rfl (by decide), by decide, by decide⟩

/-- C8: for any oracle — whatever the archive listing, removal or upload
calls return — a scan against an existing record never throws, and its
very first recorded action is the save of the updated record, with
attempts incremented and quality raised to the max; so the quality record
write precedes and is independent of the archive outcome, also when the
eviction branch declines to write. -/
theorem claim_C8_save_first (env : Env) (pid : Nat) (fp : Fingerprint)
    (pf0 : PersonFingerprint)
    (h1 : env.findRecord pid fp.fingerprintTypeId = some pf0) :
    isThrownB (processScan env pid fp) = false ∧
    ∃ rest, (processScan env pid fp).events =
        Ev.save (bumpRecord pf0 fp.quality env.now) :: rest ∧
      (bumpRecord pf0 fp.quality env.now).attempts = pf0.attempts + 1 ∧
      (bumpRecord pf0 fp.quality env.now).quality = Nat.max pf0.quality fp.quality := by
  have hps := processScan_existing env pid fp pf0 h1
  constructor
  · rw [hps]
    exact afterSave_not_thrown env (dirPath pid) (bumpRecord pf0 fp.quality env.now) fp.quality
  · obtain ⟨rest, hrest⟩ :=
      afterSave_events_head env (dirPath pid) (bumpRecord pf0 fp.quality env.now) fp.quality
    exact ⟨rest, by rw [hps]; exact hrest,
      bumpRecord_attempts pf0 fp.quality env.now,
      bumpRecord_quality pf0 fp.quality env.now⟩

/-- C8, witness: with the directory listing rejecting, the eviction-branch
scan still begins with the save of the record with attempts 5. -/
theorem claim_C8_witness :
    isThrownB (processScan envListFail 7 fpQ50) = false ∧
    ∃ rest, (processScan envListFail 7 fpQ50).events =
        Ev.save (bumpRecord pfAtt4 50 5) :: rest ∧
      (bumpRecord pfAtt4 50 5).attempts = pfAtt4.attempts + 1 ∧
      (bumpRecord pfAtt4 50 5).quality = Nat.max pfAtt4.quality 50 :=
  claim_C8_save_first envListFail 7 fpQ50 pfAtt4 rfl

/-- C9: in the eviction branch, when the policy takes no remote action
(minimum not strictly below the new quality, duplicate quality present, or
no nonzero parseable candidate), the scan outcome is still the ok result
carrying the fingerprint type name — it is pushed onto the success list
although nothing was uploaded or removed. -/
theorem claim_C9_success_without_write (env : Env) (pid : Nat) (fp : Fingerprint)
    (pf0 : PersonFingerprint) (files : List String)
    (h1 : env.findRecord pid fp.fingerprintTypeId = some pf0)
    (h2 : 2 < pf0.attempts)
    (h3 : env.listFilesRes (dirPath pid) = Except.ok files)
    (hc : ∀ m, minNonzero pf0.fingerprintType.short_name files = some m →
        m < fp.quality → qualityExists pf0.fingerprintType.short_name files fp.quality = true) :
    processScan env pid fp =
      ⟨[Ev.save (bumpRecord pf0 fp.quality env.now), Ev.list (dirPath pid)],
        ScanRes.ok pf0.fingerprintType.name⟩ ∧
    archiveOps (processScan env pid fp).events = [] := by
  have hps := processScan_existing env pid fp pf0 h1
  have hft := bumpRecord_fingerprintType pf0 fp.quality env.now
  have hA : 3 < (bumpRecord pf0 fp.quality env.now).attempts := by
    rw [bumpRecord_attempts]; omega
  have hc2 : ∀ m,
      minNonzero (bumpRecord pf0 fp.quality env.now).fingerprintType.short_name files =
        some m →
      m < fp.quality →
      qualityExists (bumpRecord pf0 fp.quality env.now).fingerprintType.short_name files
        fp.quality = true := by
    intro m hm hmlt
    rw [hft] at hm
    rw [hft]
    exact hc m hm hmlt
  have heq := afterSave_noact env (dirPath pid) (bumpRecord pf0 fp.quality env.now)
    fp.quality files hA h3 hc2
  constructor
  · rw [hps, heq, hft]
  · rw [hps, heq]
    rfl

/-- C9, witness: resubmitting quality 50 while TH_40 and TH_50 exist takes
no remote action yet ends as an ok outcome named Pulgar. -/
theorem claim_C9_witness :
    processScan envDup 7 fpQ50 =
      ⟨[Ev.save (bumpRecord pfAtt4 50 5), Ev.list (dirPath 7)],
        ScanRes.ok pfAtt4.fingerprintType.name⟩ ∧
    archiveOps (processScan envDup 7 fpQ50).events = [] :=
  claim_C9_success_without_write envDup 7 fpQ50 pfAtt4 (["TH_40.wsq", "TH_50.wsq"]) rfl
    (by decide) rfl (fun m hm hmlt => by decide)

/-- C10: showFingerprintRegistered performs no existence check — when the
person lookup returns nothing it faults by dereferencing the null result
(a TypeError, modelled as Err.nullDeref), which is not an RpcException 404
of any code and message. -/
theorem claim_C10_null_deref (env : Env) (pid : Nat)
    (h : env.findPerson pid = none) :
    showFingerprintRegistered env pid = Except.error Err.nullDeref ∧
    ∀ c msg, (Err.nullDeref : Err) ≠ Err.rpc c msg := by
  constructor
  · unfold showFingerprintRegistered
    rw [h]
  · intro c msg hne
    cases hne

/-- C10, witness: with no person at id 7 the operation evaluates to the
null-dereference fault. -/
theorem claim_C10_witness :
    showFingerprintRegistered envNoPerson 7 = Except.error Err.nullDeref ∧
    ∀ c msg, (Err.nullDeref : Err) ≠ Err.rpc c msg :=
  claim_C10_null_deref envNoPerson 7 rfl
